import Mathlib

/-!
# Event logger and safety monitor (`observability/event_logger.go`)

A shallow embedding of the Go package `observability`: the event record, the
logger (a buffered channel drained by one background consumer into an
append-only store), its read operations, and the safety monitor built on it.

Modelling conventions:

* a Go `float64` is its IEEE-754 binary64 bit pattern; the only float operation
  the package performs is the comparison `>`, defined here on the bit pattern;
* `time.Now()` is an input: every call that reads the clock takes the reading
  (Unix nanoseconds) as an argument;
* a Go `map[string]interface{}` is the list of its entries in ascending key
  order, the order in which `encoding/json` visits them; `none` is the nil map;
* the buffered channel `events` is the list of the queued events, oldest first,
  with its capacity (`bufferSize`, at least 1 for a buffered channel); a send that
  would block and a receive on an empty channel are `none` (the step is not enabled);
* an iteration of the consumer, receive then append under the lock, is one step;
  the diagnostic line it prints with `log.Printf` is not part of the state;
* library formatting (`fmt.Sprintf` of a float, `time.Time.Format`, the text
  rendering done by `json.MarshalIndent`) is a parameter, `Fmt`.
-/

namespace Observability

/-! ## Floating point -/

/-- Go `float64`: the 64-bit IEEE-754 pattern (`math.Float64bits`), read modulo `2^64`. -/
structure Float64 where
  bits : Nat
deriving DecidableEq, Repr

namespace Float64

/-- Sign bit (bit 63). -/
def sign (x : Float64) : Bool := (x.bits / 2 ^ 63) % 2 = 1

/-- Biased exponent (bits 52..62). -/
def expo (x : Float64) : Nat := (x.bits / 2 ^ 52) % 2 ^ 11

/-- Fraction field (bits 0..51). -/
def frac (x : Float64) : Nat := x.bits % 2 ^ 52

/-- NaN: exponent all ones and a nonzero fraction. -/
def isNaN (x : Float64) : Bool := x.expo = 2047 && x.frac ≠ 0

/-- Infinity of either sign: exponent all ones and a zero fraction. -/
def isInf (x : Float64) : Bool := x.expo = 2047 && x.frac = 0

/-- Position of a non-NaN value in the numeric order: the magnitude bits, negated
when the sign bit is set. Both zeros are sent to `0`. -/
def key (x : Float64) : Int :=
  if x.sign then -((x.bits % 2 ^ 63 : Nat) : Int) else ((x.bits % 2 ^ 63 : Nat) : Int)

/-- Go `x > y` on `float64`: false as soon as either operand is NaN. -/
def gt (x y : Float64) : Bool := !x.isNaN && !y.isNaN && decide (y.key < x.key)

/-- Go `x <= y` on `float64`: false as soon as either operand is NaN. -/
def le (x y : Float64) : Bool := !x.isNaN && !y.isNaN && decide (x.key ≤ y.key)

/-- Quiet NaN, the pattern of `math.NaN()`. -/
def nan : Float64 := ⟨0x7FF8000000000001⟩

/-- Positive infinity, `math.Inf(1)`. -/
def posInf : Float64 := ⟨0x7FF0000000000000⟩

/-- Negative infinity, `math.Inf(-1)`. -/
def negInf : Float64 := ⟨0xFFF0000000000000⟩

end Float64

/-! ## Data model -/

/-- Go `type EventCategory string`. -/
abbrev EventCategory := String

def EventSensorError : EventCategory := "sensor_error"
def EventControlError : EventCategory := "control_error"
def EventSafetyViolation : EventCategory := "safety_violation"
def EventSystemError : EventCategory := "system_error"
def EventAudit : EventCategory := "audit"

/-- A clock reading of `time.Now()`, in Unix nanoseconds. -/
abbrev Time := Int

/-- A value stored in a `map[string]interface{}`. `unsupported` stands for a value of
a type `encoding/json` refuses (channel, function, complex number). -/
inductive MetaValue where
  | null
  | str (s : String)
  | bool (b : Bool)
  | int (i : Int)
  | float (x : Float64)
  | list (xs : List MetaValue)
  | map (entries : List (String × MetaValue))
  | unsupported

/-- Go `map[string]interface{}`: `none` is the nil map, `some` the entries by key. -/
abbrev Metadata := Option (List (String × MetaValue))

/-- Go `struct Event`. -/
structure Event where
  Timestamp : Time
  Category : EventCategory
  Module : String
  Severity : String
  Message : String
  Metadata : Metadata
  TraceID : String
  ParentID : String

/-- Library formatting used by the package, taken as given. -/
structure Fmt where
  /-- Text of `fmt.Sprintf("%.2f", x)`. -/
  fixed2 : Float64 → String
  /-- Text of `t.Format("15:04:05")`. -/
  clock : Time → String
  /-- Text `json.MarshalIndent(store, "", "  ")` produces for a store it can encode. -/
  indent : List Event → String

/-! ## Event logger -/

/-- Go `struct EventLogger`: the channel `events` (its capacity and its buffered
events, oldest first) and the slice `store`. -/
structure EventLogger where
  capacity : Nat
  events : List Event
  store : List Event

/-- Go `NewEventLogger`: an empty channel of the given capacity and an empty store.
The consumer goroutine it starts is the step `processEvents`. -/
def NewEventLogger (bufferSize : Nat) : EventLogger :=
  { capacity := bufferSize, events := [], store := [] }

/-- Go `generateTraceID`, from its own clock reading. -/
def generateTraceID (now : Time) : String := "trace_" ++ toString now

/-- Channel send `el.events <- event`: enabled while the buffer has room. -/
def EventLogger.send (el : EventLogger) (event : Event) : Option EventLogger :=
  if el.events.length < el.capacity then
    some { el with events := el.events ++ [event] }
  else none

/-- Go `LogEvent`: builds the event from the arguments and two clock readings (one
for `Timestamp`, one inside `generateTraceID`) and sends it on the channel. -/
def LogEvent (el : EventLogger) (now traceNow : Time) (category : EventCategory)
    (module severity message : String) (metadata : Metadata) : Option EventLogger :=
  let event : Event :=
    { Timestamp := now
      Category := category
      Module := module
      Severity := severity
      Message := message
      Metadata := metadata
      TraceID := generateTraceID traceNow
      ParentID := "" }
  el.send event

/-- One iteration of the loop of Go `processEvents`: receive the oldest queued event
and append it to the store. Not enabled on an empty channel. -/
def processEvents (el : EventLogger) : Option EventLogger :=
  match el.events with
  | [] => none
  | event :: rest => some { el with events := rest, store := el.store ++ [event] }

/-- Iterations of `processEvents`, at most `n`, stopping when the channel is empty. -/
def drainN : Nat → EventLogger → EventLogger
  | 0, el => el
  | n + 1, el =>
    match processEvents el with
    | none => el
    | some el' => drainN n el'

/-- The consumer runs until the channel is empty. -/
def drain (el : EventLogger) : EventLogger := drainN el.events.length el

/-- Go `GetEventsByCategory`: scan the store, appending each match to `results`. -/
def GetEventsByCategory (el : EventLogger) (category : EventCategory) : List Event :=
  el.store.foldl
    (fun results event => if event.Category = category then results ++ [event] else results) []

/-- Go `GetEventsBySeverity`: scan the store, appending each match to `results`. -/
def GetEventsBySeverity (el : EventLogger) (severity : String) : List Event :=
  el.store.foldl
    (fun results event => if event.Severity = severity then results ++ [event] else results) []

/-- Errors of `encoding/json`: a value of a type it cannot encode, or a float that is
NaN or infinite. -/
inductive MarshalError where
  | unsupportedType
  | unsupportedValue (x : Float64)
deriving DecidableEq, Repr

mutual
/-- First error `encoding/json` meets while encoding a value, if any. -/
def MetaValue.jsonError : MetaValue → Option MarshalError
  | .null => none
  | .str _ => none
  | .bool _ => none
  | .int _ => none
  | .float x => if x.isNaN || x.isInf then some (.unsupportedValue x) else none
  | .list xs => jsonErrorList xs
  | .map entries => jsonErrorEntries entries
  | .unsupported => some .unsupportedType
/-- First error among the elements of a slice. -/
def jsonErrorList : List MetaValue → Option MarshalError
  | [] => none
  | x :: xs =>
    match x.jsonError with
    | some err => some err
    | none => jsonErrorList xs
/-- First error among the entries of a map, by key. -/
def jsonErrorEntries : List (String × MetaValue) → Option MarshalError
  | [] => none
  | (_, x) :: rest =>
    match x.jsonError with
    | some err => some err
    | none => jsonErrorEntries rest
end

/-- First error while encoding one event: only `Metadata` can fail (strings always
encode, and a clock reading is a date `time.Time` can encode). -/
def Event.jsonError (event : Event) : Option MarshalError :=
  match event.Metadata with
  | none => none
  | some entries => jsonErrorEntries entries

/-- First error while encoding the store, event by event. -/
def storeJsonError : List Event → Option MarshalError
  | [] => none
  | event :: rest =>
    match event.jsonError with
    | some err => some err
    | none => storeJsonError rest

/-- Go `ExportJSON`: the error of `json.MarshalIndent` if it has one, else its text. -/
def ExportJSON (fmt : Fmt) (el : EventLogger) : Except MarshalError String :=
  match storeJsonError el.store with
  | some err => .error err
  | none => .ok (fmt.indent el.store)

/-! ## Safety monitor -/

/-- Go `struct SafetyMonitor`: the logger it writes to and reads from. -/
structure SafetyMonitor where
  logger : EventLogger

/-- Go `NewSafetyMonitor`. -/
def NewSafetyMonitor (logger : EventLogger) : SafetyMonitor := { logger := logger }

/-- Go `CheckAltitudeLimit`: the returned boolean and the monitor afterwards; `none`
while the `LogEvent` it calls is blocked on a full channel. -/
def CheckAltitudeLimit (fmt : Fmt) (sm : SafetyMonitor) (now traceNow : Time)
    (altitude maxAltitude : Float64) : Option (Bool × SafetyMonitor) :=
  if altitude.gt maxAltitude then
    match LogEvent sm.logger now traceNow EventSafetyViolation "safety_monitor" "CRITICAL"
        ("Altitude exceeded: " ++ fmt.fixed2 altitude ++ " > " ++ fmt.fixed2 maxAltitude)
        (some [("current_altitude", .float altitude), ("max_altitude", .float maxAltitude)]) with
    | none => none
    | some logger => some (false, { sm with logger := logger })
  else some (true, sm)

/-- Go `CheckVelocityLimit`: as `CheckAltitudeLimit`, for the velocity. -/
def CheckVelocityLimit (fmt : Fmt) (sm : SafetyMonitor) (now traceNow : Time)
    (velocity maxVelocity : Float64) : Option (Bool × SafetyMonitor) :=
  if velocity.gt maxVelocity then
    match LogEvent sm.logger now traceNow EventSafetyViolation "safety_monitor" "CRITICAL"
        ("Velocity exceeded: " ++ fmt.fixed2 velocity ++ " > " ++ fmt.fixed2 maxVelocity)
        (some [("current_velocity", .float velocity), ("max_velocity", .float maxVelocity)]) with
    | none => none
    | some logger => some (false, { sm with logger := logger })
  else some (true, sm)

/-- Head of the report: the three counts set in the template of `fmt.Sprintf`. -/
def reportHeader (violations errors total : Nat) : String :=
  "\n╔════════════════════════════════════════╗\n" ++
  "║          安全監控報告                    ║\n" ++
  "╚════════════════════════════════════════╝\n\n" ++
  "安全違規事件：" ++ toString violations ++ "\n" ++
  "感測器錯誤：" ++ toString errors ++ "\n" ++
  "總事件數：" ++ toString total ++ "\n\n" ++
  "最近的安全違規：\n"

/-- One line of the report: `fmt.Sprintf("  • %s: %s\n", ...)`. -/
def violationLine (fmt : Fmt) (v : Event) : String :=
  "  • " ++ fmt.clock v.Timestamp ++ ": " ++ v.Message ++ "\n"

/-- The loop `for i, v := range violations` of `GenerateSafetyReport`, from index `i`
on: it breaks at `i >= 5` and otherwise appends the line of `v` to `report`. -/
def reportLoop (fmt : Fmt) : Nat → List Event → String → String
  | _, [], report => report
  | i, v :: rest, report =>
    if i ≥ 5 then report else reportLoop fmt (i + 1) rest (report ++ violationLine fmt v)

/-- The events whose line the loop of `GenerateSafetyReport` appends, from index `i` on
(the same loop, collecting the events instead of their text). -/
def shownViolations : Nat → List Event → List Event
  | _, [] => []
  | i, v :: rest => if i ≥ 5 then [] else v :: shownViolations (i + 1) rest

/-- Go `GenerateSafetyReport`. -/
def GenerateSafetyReport (fmt : Fmt) (sm : SafetyMonitor) : String :=
  let violations := GetEventsByCategory sm.logger EventSafetyViolation
  let errors := GetEventsByCategory sm.logger EventSensorError
  reportLoop fmt 0 violations
    (reportHeader violations.length errors.length sm.logger.store.length)

/-! ## Executions -/

/-- The arguments of one call of `LogEvent`, with the two clock readings it makes. -/
structure LogCall where
  now : Time
  traceNow : Time
  category : EventCategory
  module : String
  severity : String
  message : String
  metadata : Metadata

/-- The event the call of `LogEvent` builds. -/
def LogCall.event (call : LogCall) : Event :=
  { Timestamp := call.now
    Category := call.category
    Module := call.module
    Severity := call.severity
    Message := call.message
    Metadata := call.metadata
    TraceID := generateTraceID call.traceNow
    ParentID := "" }

/-- The call of `LogEvent` on a logger. -/
def LogCall.apply (call : LogCall) (el : EventLogger) : Option EventLogger :=
  LogEvent el call.now call.traceNow call.category call.module call.severity call.message
    call.metadata

/-- A step of a logger with one caller: the caller completes a `LogEvent`, or the
consumer completes one iteration of `processEvents`. -/
inductive Step where
  | log (call : LogCall)
  | consume

/-- Effect of one step; `none` when the step is not enabled (it would block). -/
def step (el : EventLogger) : Step → Option EventLogger
  | .log call => call.apply el
  | .consume => processEvents el

/-- Effect of a sequence of steps, each enabled when it is taken. -/
def run (el : EventLogger) : List Step → Option EventLogger
  | [] => some el
  | s :: rest =>
    match step el s with
    | none => none
    | some el' => run el' rest

/-- The events of the `LogEvent` calls of an execution, in call order. -/
def calls : List Step → List Event
  | [] => []
  | .log call :: rest => call.event :: calls rest
  | .consume :: rest => calls rest

/-- Who moves next in a system of several producers and the consumer. -/
inductive Turn where
  | producer (p : Nat)
  | consumer

/-- Producers sharing one logger: for each producer the `LogEvent` calls it still has
to make, in its program order. -/
structure System where
  pending : List (List LogCall)
  logger : EventLogger

/-- One turn: producer `p` completes its next `LogEvent`, or the consumer completes an
iteration. `none` when the turn is not enabled: the send would block, the channel is
empty, or the producer has finished. -/
def System.turn (sys : System) : Turn → Option System
  | .producer p =>
    match sys.pending.get? p with
    | some (call :: rest) =>
      match call.apply sys.logger with
      | none => none
      | some el => some { pending := sys.pending.set p rest, logger := el }
    | _ => none
  | .consumer =>
    match processEvents sys.logger with
    | none => none
    | some el => some { sys with logger := el }

/-- An interleaving: the turns taken one after the other, each enabled when taken. -/
def System.exec (sys : System) : List Turn → Option System
  | [] => some sys
  | t :: rest =>
    match sys.turn t with
    | none => none
    | some sys' => sys'.exec rest

/-- The operations of the logger and of the monitor. -/
inductive Op where
  | logEvent (call : LogCall)
  | processEvents
  | getEventsByCategory (category : EventCategory)
  | getEventsBySeverity (severity : String)
  | exportJSON
  | checkAltitudeLimit (now traceNow : Time) (altitude maxAltitude : Float64)
  | checkVelocityLimit (now traceNow : Time) (velocity maxVelocity : Float64)
  | generateSafetyReport

/-- What an operation hands back to its caller. -/
inductive Output where
  | unit
  | events (results : List Event)
  | export (result : Except MarshalError String)
  | bool (b : Bool)
  | text (report : String)

/-- The operations that only query the logger. -/
def Op.isRead : Op → Bool
  | .getEventsByCategory _ => true
  | .getEventsBySeverity _ => true
  | .exportJSON => true
  | .generateSafetyReport => true
  | _ => false

/-- An operation on a logger (the monitor's are run on a monitor of that logger):
its output and the logger afterwards; `none` when it is not enabled. -/
def Op.exec (fmt : Fmt) (el : EventLogger) : Op → Option (Output × EventLogger)
  | .logEvent call => (call.apply el).map fun el' => (.unit, el')
  | .processEvents => (Observability.processEvents el).map fun el' => (.unit, el')
  | .getEventsByCategory category => some (.events (GetEventsByCategory el category), el)
  | .getEventsBySeverity severity => some (.events (GetEventsBySeverity el severity), el)
  | .exportJSON => some (.export (ExportJSON fmt el), el)
  | .checkAltitudeLimit now traceNow altitude maxAltitude =>
    (CheckAltitudeLimit fmt (NewSafetyMonitor el) now traceNow altitude maxAltitude).map
      fun r => (.bool r.1, r.2.logger)
  | .checkVelocityLimit now traceNow velocity maxVelocity =>
    (CheckVelocityLimit fmt (NewSafetyMonitor el) now traceNow velocity maxVelocity).map
      fun r => (.bool r.1, r.2.logger)
  | .generateSafetyReport => some (.text (GenerateSafetyReport fmt (NewSafetyMonitor el)), el)

/-! ## Vocabulary of the properties -/

/-- Strings, booleans and numbers. -/
def MetaValue.isScalar : MetaValue → Bool
  | .str _ => true
  | .bool _ => true
  | .int _ => true
  | .float _ => true
  | _ => false

/-- Scalars other than a NaN or infinite float. -/
def MetaValue.isFiniteScalar : MetaValue → Bool
  | .str _ => true
  | .bool _ => true
  | .int _ => true
  | .float x => !(x.isNaN || x.isInf)
  | _ => false

/-- Every metadata value of the event is a scalar. -/
def Event.scalarMetadata (event : Event) : Bool :=
  match event.Metadata with
  | none => true
  | some entries => entries.all fun kv => kv.2.isScalar

/-- Every metadata value of the event is a scalar, its floats finite. -/
def Event.finiteScalarMetadata (event : Event) : Bool :=
  match event.Metadata with
  | none => true
  | some entries => entries.all fun kv => kv.2.isFiniteScalar

mutual
/-- A value JSON cannot represent: a float that is NaN or infinite, a value of a type
with no JSON form, or a slice or map holding such a value. -/
def MetaValue.unrepresentable : MetaValue → Bool
  | .null => false
  | .str _ => false
  | .bool _ => false
  | .int _ => false
  | .float x => x.isNaN || x.isInf
  | .list xs => unrepresentableList xs
  | .map entries => unrepresentableEntries entries
  | .unsupported => true
/-- Some element of the slice is unrepresentable. -/
def unrepresentableList : List MetaValue → Bool
  | [] => false
  | x :: xs => x.unrepresentable || unrepresentableList xs
/-- Some value of the map is unrepresentable. -/
def unrepresentableEntries : List (String × MetaValue) → Bool
  | [] => false
  | (_, x) :: rest => x.unrepresentable || unrepresentableEntries rest
end

/-- Some metadata value of the event cannot be represented in JSON. -/
def Event.hasUnencodable (event : Event) : Prop :=
  ∃ entries, event.Metadata = some entries ∧ ∃ kv ∈ entries, kv.2.unrepresentable = true

/-- A stand-in for the library formatting, to evaluate the definitions on concrete
inputs: a float is shown by its bit pattern, a time by its nanoseconds, the JSON text
by the number of records. -/
def Fmt.sample : Fmt :=
  { fixed2 := fun x => toString x.bits
    clock := fun t => toString t
    indent := fun store => "[" ++ toString store.length ++ " records]" }

/-- The float64 values of the demonstration in `main.go`. -/
def f150 : Float64 := ⟨0x4062C00000000000⟩
def f100 : Float64 := ⟨0x4059000000000000⟩
def f25 : Float64 := ⟨0x4039000000000000⟩
def f30 : Float64 := ⟨0x403E000000000000⟩
def f005 : Float64 := ⟨0x3FA999999999999A⟩
def f003 : Float64 := ⟨0x3F9EB851EB851EB8⟩

/-- The first `LogEvent` call of `main.go`, with clock readings 1 and 2. -/
def mainStartup : LogCall :=
  { now := 1, traceNow := 2, category := EventAudit, module := "flight_controller",
    severity := "INFO", message := "System started", metadata := none }

/-- The second `LogEvent` call of `main.go`, with clock readings 3 and 4. -/
def mainSensor : LogCall :=
  { now := 3, traceNow := 4, category := EventSensorError, module := "sensor_fusion",
    severity := "WARN", message := "IMU calibration drift detected",
    metadata := some [("drift_value", .float f005), ("threshold", .float f003)] }

/-- The events of the calls the producers still have to make, producer by producer. -/
def pendingEvents : List (List LogCall) → List Event
  | [] => []
  | program :: rest => program.map LogCall.event ++ pendingEvents rest

/-- A `safety_violation` call numbered `n`, made at clock reading `n`. -/
def violationCall (n : Nat) : LogCall :=
  { now := n, traceNow := n, category := EventSafetyViolation, module := "safety_monitor",
    severity := "CRITICAL", message := "violation " ++ toString n, metadata := none }

/-- A store of six `safety_violation` events, appended in the order 1 to 6. -/
def sixViolations : List Event :=
  [(violationCall 1).event, (violationCall 2).event, (violationCall 3).event,
    (violationCall 4).event, (violationCall 5).event, (violationCall 6).event]

/-! ## Shared lemmas -/

theorem foldl_append_eq_filter {α : Type} (q : α → Prop) [DecidablePred q] (l acc : List α) :
    l.foldl (fun results x => if q x then results ++ [x] else results) acc
      = acc ++ l.filter (fun x => decide (q x)) := by
  induction l generalizing acc with
  | nil => simp
  | cons x xs ih =>
    by_cases hx : q x
    · simp [List.foldl_cons, hx, ih]
    · simp [List.foldl_cons, hx, ih]

theorem getEventsByCategory_eq (el : EventLogger) (category : EventCategory) :
    GetEventsByCategory el category
      = el.store.filter (fun event => decide (event.Category = category)) := by
  unfold GetEventsByCategory
  rw [foldl_append_eq_filter (fun event : Event => event.Category = category)]
  simp

theorem getEventsBySeverity_eq (el : EventLogger) (severity : String) :
    GetEventsBySeverity el severity
      = el.store.filter (fun event => decide (event.Severity = severity)) := by
  unfold GetEventsBySeverity
  rw [foldl_append_eq_filter (fun event : Event => event.Severity = severity)]
  simp

theorem gt_eq_false_iff (x y : Float64) :
    x.gt y = false ↔ ((x.isNaN || y.isNaN) = true ∨ x.le y = true) := by
  unfold Float64.gt Float64.le
  cases x.isNaN <;> cases y.isNaN <;> simp

theorem drainN_eq (n : Nat) (el : EventLogger) (h : el.events.length ≤ n) :
    drainN n el
      = { capacity := el.capacity, events := [], store := el.store ++ el.events } := by
  induction n generalizing el with
  | zero =>
    obtain ⟨cap, events, store⟩ := el
    have hnil : events = [] := List.length_eq_zero.mp (Nat.le_zero.mp h)
    subst hnil
    simp [drainN]
  | succ n ih =>
    obtain ⟨cap, events, store⟩ := el
    cases events with
    | nil => simp [drainN, processEvents]
    | cons event rest =>
      have hrest : rest.length ≤ n := by simpa using h
      simp [drainN, processEvents, ih ⟨cap, rest, store ++ [event]⟩ hrest]

theorem drain_eq (el : EventLogger) :
    drain el = { capacity := el.capacity, events := [], store := el.store ++ el.events } :=
  drainN_eq el.events.length el (Nat.le_refl _)

theorem logCall_apply_eq (call : LogCall) (el : EventLogger) :
    call.apply el = el.send call.event := rfl

theorem send_eq_some {el el' : EventLogger} {event : Event} (h : el.send event = some el') :
    el' = { capacity := el.capacity, events := el.events ++ [event], store := el.store } := by
  unfold EventLogger.send at h
  split at h
  · exact (Option.some.inj h).symm
  · exact absurd h (by simp)

theorem processEvents_eq_some {el el' : EventLogger} (h : processEvents el = some el') :
    ∃ event rest, el.events = event :: rest
      ∧ el' = { capacity := el.capacity, events := rest, store := el.store ++ [event] } := by
  unfold processEvents at h
  split at h
  · exact absurd h (by simp)
  · next event rest heq => exact ⟨event, rest, heq, (Option.some.inj h).symm⟩

/-! ## Queries -/

/-- C1: `GetEventsByCategory` returns the store filtered by `Category == c`, each
matching event once and in store order; with no match it returns the empty sequence. -/
theorem getEventsByCategory_filter (el : EventLogger) (c : EventCategory) :
    GetEventsByCategory el c = el.store.filter (fun event => decide (event.Category = c))
    ∧ ((∀ event ∈ el.store, event.Category ≠ c) → GetEventsByCategory el c = []) := by
  refine ⟨getEventsByCategory_eq el c, fun h => ?_⟩
  rw [getEventsByCategory_eq, List.filter_eq_nil_iff]
  intro event hmem
  simpa using h event hmem

/-- C10: for every string `s`, `GetEventsBySeverity` returns the store filtered by
`Severity == s`, in store order; with no match it returns the empty sequence. -/
theorem getEventsBySeverity_filter (el : EventLogger) (s : String) :
    GetEventsBySeverity el s = el.store.filter (fun event => decide (event.Severity = s))
    ∧ ((∀ event ∈ el.store, event.Severity ≠ s) → GetEventsBySeverity el s = []) := by
  refine ⟨getEventsBySeverity_eq el s, fun h => ?_⟩
  rw [getEventsBySeverity_eq, List.filter_eq_nil_iff]
  intro event hmem
  simpa using h event hmem

/-- C1 on the store of `main.go`: one `sensor_error` event, no `control_error` event. -/
theorem getEventsByCategory_filter_example :
    GetEventsByCategory ⟨100, [], [mainStartup.event, mainSensor.event]⟩ EventSensorError
        = [mainSensor.event]
    ∧ GetEventsByCategory ⟨100, [], [mainStartup.event, mainSensor.event]⟩ EventControlError
        = [] :=
  ⟨rfl, (getEventsByCategory_filter ⟨100, [], [mainStartup.event, mainSensor.event]⟩
      EventControlError).2
    (by
      intro event hevent
      simp only [List.mem_cons, List.mem_singleton, List.not_mem_nil, or_false] at hevent
      rcases hevent with h | h <;> subst h <;> decide)⟩

/-- C10 on the store of `main.go`: one `WARN` event, none of the severity `FATAL`,
which is not one of the four named severities. -/
theorem getEventsBySeverity_filter_example :
    GetEventsBySeverity ⟨100, [], [mainStartup.event, mainSensor.event]⟩ "WARN"
        = [mainSensor.event]
    ∧ GetEventsBySeverity ⟨100, [], [mainStartup.event, mainSensor.event]⟩ "FATAL" = [] :=
  ⟨rfl, (getEventsBySeverity_filter ⟨100, [], [mainStartup.event, mainSensor.event]⟩
      "FATAL").2
    (by
      intro event hevent
      simp only [List.mem_cons, List.mem_singleton, List.not_mem_nil, or_false] at hevent
      rcases hevent with h | h <;> subst h <;> decide)⟩

/-! ## Limit checks -/

/-- C2 (as the code has it): `CheckAltitudeLimit` returns true exactly when
`altitude > maxAltitude` is false, that is when an operand is NaN or
`altitude <= maxAltitude`; the same for `CheckVelocityLimit`. -/
theorem check_limit_true_iff (fmt : Fmt) (sm : SafetyMonitor) (now traceNow : Time)
    (value limit : Float64) :
    ((∃ sm', CheckAltitudeLimit fmt sm now traceNow value limit = some (true, sm'))
        ↔ ((value.isNaN || limit.isNaN) = true ∨ value.le limit = true))
    ∧ ((∃ sm', CheckVelocityLimit fmt sm now traceNow value limit = some (true, sm'))
        ↔ ((value.isNaN || limit.isNaN) = true ∨ value.le limit = true)) := by
  rw [← gt_eq_false_iff]
  constructor
  · unfold CheckAltitudeLimit
    cases hgt : value.gt limit
    · simp
    · simp only [if_true]
      cases LogEvent sm.logger now traceNow EventSafetyViolation "safety_monitor" "CRITICAL"
        ("Altitude exceeded: " ++ fmt.fixed2 value ++ " > " ++ fmt.fixed2 limit)
        (some [("current_altitude", .float value), ("max_altitude", .float limit)]) <;> simp
  · unfold CheckVelocityLimit
    cases hgt : value.gt limit
    · simp
    · simp only [if_true]
      cases LogEvent sm.logger now traceNow EventSafetyViolation "safety_monitor" "CRITICAL"
        ("Velocity exceeded: " ++ fmt.fixed2 value ++ " > " ++ fmt.fixed2 limit)
        (some [("current_velocity", .float value), ("max_velocity", .float limit)]) <;> simp

/-- C2, as stated, fails on NaN: `CheckAltitudeLimit(NaN, 100.0)` and
`CheckVelocityLimit(NaN, 100.0)` return true although `NaN <= 100.0` is false. -/
theorem check_limit_nan_returns_true :
    (CheckAltitudeLimit Fmt.sample (NewSafetyMonitor (NewEventLogger 1)) 0 0
        Float64.nan f100).map Prod.fst = some true
    ∧ (CheckVelocityLimit Fmt.sample (NewSafetyMonitor (NewEventLogger 1)) 0 0
        Float64.nan f100).map Prod.fst = some true
    ∧ Float64.nan.le f100 = false := by
  decide

/-- C3: on a logger with an empty queue and capacity at least 1, a check whose value
exceeds the limit returns false and, once the consumer has drained the queue, the
store is the old store followed by one new event, of category `safety_violation`,
severity `CRITICAL`, with both raw values in its metadata; a check whose value does
not exceed the limit returns true and leaves queue and store as they were. -/
theorem check_limit_logs_violation (fmt : Fmt) (cap : Nat) (hcap : 1 ≤ cap)
    (store : List Event) (now traceNow : Time) (value limit : Float64) :
    (value.gt limit = true →
      (∃ sm' event,
        CheckAltitudeLimit fmt ⟨⟨cap, [], store⟩⟩ now traceNow value limit = some (false, sm')
        ∧ (drain sm'.logger).store = store ++ [event] ∧ (drain sm'.logger).events = []
        ∧ event.Category = EventSafetyViolation ∧ event.Severity = "CRITICAL"
        ∧ event.Metadata
            = some [("current_altitude", .float value), ("max_altitude", .float limit)])
      ∧ (∃ sm' event,
        CheckVelocityLimit fmt ⟨⟨cap, [], store⟩⟩ now traceNow value limit = some (false, sm')
        ∧ (drain sm'.logger).store = store ++ [event] ∧ (drain sm'.logger).events = []
        ∧ event.Category = EventSafetyViolation ∧ event.Severity = "CRITICAL"
        ∧ event.Metadata
            = some [("current_velocity", .float value), ("max_velocity", .float limit)]))
    ∧ (value.gt limit = false →
      CheckAltitudeLimit fmt ⟨⟨cap, [], store⟩⟩ now traceNow value limit
          = some (true, ⟨⟨cap, [], store⟩⟩)
      ∧ CheckVelocityLimit fmt ⟨⟨cap, [], store⟩⟩ now traceNow value limit
          = some (true, ⟨⟨cap, [], store⟩⟩)) := by
  have hroom : (0 : Nat) < cap := hcap
  constructor
  · intro hgt
    constructor
    · let event : Event := LogCall.event ⟨now, traceNow, EventSafetyViolation,
          "safety_monitor", "CRITICAL",
          "Altitude exceeded: " ++ fmt.fixed2 value ++ " > " ++ fmt.fixed2 limit,
          some [("current_altitude", .float value), ("max_altitude", .float limit)]⟩
      refine ⟨⟨⟨cap, [event], store⟩⟩, event, ?_, ?_, ?_, rfl, rfl, rfl⟩
      · simp only [CheckAltitudeLimit, hgt, if_true, LogEvent, EventLogger.send,
          List.length_nil, hroom, List.nil_append]
        rfl
      · simp [drain_eq]
      · simp [drain_eq]
    · let event : Event := LogCall.event ⟨now, traceNow, EventSafetyViolation,
          "safety_monitor", "CRITICAL",
          "Velocity exceeded: " ++ fmt.fixed2 value ++ " > " ++ fmt.fixed2 limit,
          some [("current_velocity", .float value), ("max_velocity", .float limit)]⟩
      refine ⟨⟨⟨cap, [event], store⟩⟩, event, ?_, ?_, ?_, rfl, rfl, rfl⟩
      · simp only [CheckVelocityLimit, hgt, if_true, LogEvent, EventLogger.send,
          List.length_nil, hroom, List.nil_append]
        rfl
      · simp [drain_eq]
      · simp [drain_eq]
  · intro hgt
    simp [CheckAltitudeLimit, CheckVelocityLimit, hgt]

/-- C3 on the run of `main.go`: with the two logged events in the store,
`CheckAltitudeLimit(150.0, 100.0)` adds one `safety_violation` event and
`CheckVelocityLimit(25.0, 30.0)` adds none. -/
theorem check_limit_main_scenario :
    1 ≤ 100 ∧ f150.gt f100 = true ∧ f25.gt f30 = false
    ∧ (∃ sm' event,
        CheckAltitudeLimit Fmt.sample ⟨⟨100, [], [mainStartup.event, mainSensor.event]⟩⟩
          5 6 f150 f100 = some (false, sm')
        ∧ (drain sm'.logger).store = [mainStartup.event, mainSensor.event] ++ [event]
        ∧ (drain sm'.logger).events = []
        ∧ event.Category = EventSafetyViolation ∧ event.Severity = "CRITICAL"
        ∧ event.Metadata
            = some [("current_altitude", .float f150), ("max_altitude", .float f100)])
    ∧ CheckVelocityLimit Fmt.sample ⟨⟨100, [], [mainStartup.event, mainSensor.event]⟩⟩
          7 8 f25 f30 = some (true, ⟨⟨100, [], [mainStartup.event, mainSensor.event]⟩⟩) :=
  ⟨by decide, by decide, by decide,
    ((check_limit_logs_violation Fmt.sample 100 (by decide)
      [mainStartup.event, mainSensor.event] 5 6 f150 f100).1 (by decide)).1,
    ((check_limit_logs_violation Fmt.sample 100 (by decide)
      [mainStartup.event, mainSensor.event] 7 8 f25 f30).2 (by decide)).2⟩

/-! ## Order of the store -/

theorem step_store_events {el el' : EventLogger} {s : Step} (h : step el s = some el') :
    el'.store ++ el'.events = el.store ++ el.events ++ calls [s] := by
  cases s with
  | log call =>
    have h' : el.send call.event = some el' := h
    rw [send_eq_some h']
    simp [calls]
  | consume =>
    obtain ⟨event, rest, hq, hel⟩ := processEvents_eq_some (show processEvents el = some el' from h)
    rw [hel, hq]
    simp [calls]

theorem calls_cons (s : Step) (steps : List Step) : calls (s :: steps) = calls [s] ++ calls steps := by
  cases s <;> simp [calls]

theorem run_store_events (steps : List Step) (el el' : EventLogger)
    (h : run el steps = some el') :
    el'.store ++ el'.events = el.store ++ el.events ++ calls steps := by
  induction steps generalizing el with
  | nil =>
    have : el = el' := Option.some.inj h
    subst this
    simp [calls]
  | cons s rest ih =>
    unfold run at h
    cases hs : step el s with
    | none => rw [hs] at h; exact absurd h (by simp)
    | some mid =>
      rw [hs] at h
      rw [ih mid h, step_store_events hs, calls_cons s rest, List.append_assoc]

/-- C6: in every execution of a fresh logger by one caller and the consumer, the store
followed by the queue is the sequence of logged events in call order; so once the
queue has drained the store is that sequence. -/
theorem store_order_is_call_order (cap : Nat) (steps : List Step) (el : EventLogger)
    (h : run (NewEventLogger cap) steps = some el) :
    el.store ++ el.events = calls steps
    ∧ (drain el).store = calls steps ∧ (drain el).events = [] := by
  have hinv := run_store_events steps (NewEventLogger cap) el h
  simp only [NewEventLogger, List.append_nil, List.nil_append] at hinv
  refine ⟨hinv, ?_, ?_⟩
  · rw [drain_eq]; exact hinv
  · rw [drain_eq]

/-- C6 on an execution of capacity 1: log, consume, log. -/
theorem store_order_is_call_order_example :
    run (NewEventLogger 1) [.log mainStartup, .consume, .log mainSensor]
        = some ⟨1, [mainSensor.event], [mainStartup.event]⟩
    ∧ [mainStartup.event] ++ [mainSensor.event]
        = calls [.log mainStartup, .consume, .log mainSensor]
    ∧ (drain ⟨1, [mainSensor.event], [mainStartup.event]⟩).store
        = calls [.log mainStartup, .consume, .log mainSensor]
    ∧ (drain ⟨1, [mainSensor.event], [mainStartup.event]⟩).events = [] :=
  ⟨rfl, store_order_is_call_order 1 [.log mainStartup, .consume, .log mainSensor]
    ⟨1, [mainSensor.event], [mainStartup.event]⟩ rfl⟩

/-! ## Several producers -/

theorem pendingEvents_set {programs : List (List LogCall)} {p : Nat} {call : LogCall}
    {rest : List LogCall} (h : programs.get? p = some (call :: rest)) :
    List.Perm (pendingEvents programs) (call.event :: pendingEvents (programs.set p rest)) := by
  induction programs generalizing p with
  | nil => simp at h
  | cons program others ih =>
    cases p with
    | zero =>
      have hp : program = call :: rest := by simpa using h
      subst hp
      simp [pendingEvents]
    | succ p =>
      have hp : others.get? p = some (call :: rest) := by simpa using h
      have hperm := ih hp
      simp only [List.set_cons_succ, pendingEvents]
      exact (List.Perm.append_left _ hperm).trans List.perm_middle

theorem pendingEvents_length (M : Nat) (programs : List (List LogCall))
    (hM : ∀ program ∈ programs, program.length = M) :
    (pendingEvents programs).length = programs.length * M := by
  induction programs with
  | nil => simp [pendingEvents]
  | cons program others ih =>
    have h1 : program.length = M := hM program (List.mem_cons_self _ _)
    have h2 := ih (fun q hq => hM q (List.mem_cons_of_mem _ hq))
    simp only [pendingEvents, List.length_append, List.length_map, List.length_cons, h1, h2]
    ring

theorem pendingEvents_done (programs : List (List LogCall))
    (hdone : ∀ program ∈ programs, program = []) : pendingEvents programs = [] := by
  induction programs with
  | nil => rfl
  | cons program others ih =>
    have h1 : program = [] := hdone program (List.mem_cons_self _ _)
    have h2 := ih (fun q hq => hdone q (List.mem_cons_of_mem _ hq))
    simp [pendingEvents, h1, h2]

theorem turn_keeps_events {sys sys' : System} {t : Turn} (h : sys.turn t = some sys') :
    List.Perm (sys'.logger.store ++ sys'.logger.events ++ pendingEvents sys'.pending)
      (sys.logger.store ++ sys.logger.events ++ pendingEvents sys.pending) := by
  cases t with
  | producer p =>
    simp only [System.turn] at h
    split at h
    · next call rest hget =>
      split at h
      · exact absurd h (by simp)
      · next el hsend =>
        have hsys : sys' = { pending := sys.pending.set p rest, logger := el } :=
          (Option.some.inj h).symm
        have hel := send_eq_some (show sys.logger.send call.event = some el from hsend)
        subst hsys
        subst hel
        simp only [List.append_assoc]
        refine List.Perm.append_left _ (List.Perm.append_left _ ?_)
        exact (pendingEvents_set hget).symm
    · exact absurd h (by simp)
  | consumer =>
    simp only [System.turn] at h
    split at h
    · exact absurd h (by simp)
    · next el hproc =>
      have hsys : sys' = { sys with logger := el } := (Option.some.inj h).symm
      obtain ⟨event, rest, hq, hel⟩ := processEvents_eq_some hproc
      subst hsys
      subst hel
      simp [hq]

theorem exec_keeps_events (schedule : List Turn) (sys sys' : System)
    (h : sys.exec schedule = some sys') :
    List.Perm (sys'.logger.store ++ sys'.logger.events ++ pendingEvents sys'.pending)
      (sys.logger.store ++ sys.logger.events ++ pendingEvents sys.pending) := by
  induction schedule generalizing sys with
  | nil =>
    have : sys = sys' := Option.some.inj h
    subst this
    exact List.Perm.refl _
  | cons t rest ih =>
    unfold System.exec at h
    cases ht : sys.turn t with
    | none => rw [ht] at h; exact absurd h (by simp)
    | some mid =>
      rw [ht] at h
      exact (ih mid h).trans (turn_keeps_events ht)

theorem pendingEvents_nil (programs : List (List LogCall))
    (h : pendingEvents programs = []) : ∀ program ∈ programs, program = [] := by
  induction programs with
  | nil => simp
  | cons program others ih =>
    simp only [pendingEvents, List.append_eq_nil, List.map_eq_nil_iff] at h
    intro q hq
    rcases List.mem_cons.mp hq with hq | hq
    · rw [hq]; exact h.1
    · exact ih h.2 q hq

theorem exists_pending_call (programs : List (List LogCall))
    (h : pendingEvents programs ≠ []) :
    ∃ p call rest, programs.get? p = some (call :: rest) := by
  induction programs with
  | nil => exact absurd rfl h
  | cons program others ih =>
    cases program with
    | cons call rest => exact ⟨0, call, rest, rfl⟩
    | nil =>
      have h' : pendingEvents others ≠ [] := by simpa [pendingEvents] using h
      obtain ⟨p, call, rest, hp⟩ := ih h'
      exact ⟨p + 1, call, rest, by simpa using hp⟩

theorem exists_completion (n : Nat) (sys : System)
    (hn : (pendingEvents sys.pending).length = n) (hq : sys.logger.events = [])
    (hcap : 1 ≤ sys.logger.capacity) :
    ∃ schedule sys', sys.exec schedule = some sys'
      ∧ ∀ program ∈ sys'.pending, program = [] := by
  induction n generalizing sys with
  | zero =>
    exact ⟨[], sys, rfl, pendingEvents_nil _ (List.length_eq_zero.mp hn)⟩
  | succ n ih =>
    have hne : pendingEvents sys.pending ≠ [] := by
      intro h0
      rw [h0] at hn
      exact absurd hn (by simp)
    obtain ⟨p, call, rest, hp⟩ := exists_pending_call sys.pending hne
    obtain ⟨pending, ⟨cap, events, store⟩⟩ := sys
    simp only at hq hcap hp hn
    subst hq
    have hlen : (pendingEvents (pending.set p rest)).length = n := by
      have := (pendingEvents_set hp).length_eq
      simp only [List.length_cons] at this
      omega
    have hroom : 0 < cap := hcap
    obtain ⟨schedule, sys', hexec, hdone⟩ :=
      ih ⟨pending.set p rest, ⟨cap, [], store ++ [call.event]⟩⟩ hlen rfl hcap
    refine ⟨.producer p :: .consumer :: schedule, sys', ?_, hdone⟩
    simp only [System.exec, System.turn, hp, LogCall.apply, LogEvent, EventLogger.send,
      List.length_nil, hroom, if_true, List.nil_append, processEvents]
    exact hexec

/-- C7: `N` producers each logging `M` events into a fresh logger: after any
interleaving of their sends and the consumer's iterations in which every producer has
finished, and once the queue has drained, the store holds `N * M` events and is a
rearrangement of the logged events (each present as often as it was logged); with a
capacity of at least 1 such an interleaving exists. -/
theorem producers_no_loss_no_duplication (N M cap : Nat) (programs : List (List LogCall))
    (hN : programs.length = N) (hM : ∀ program ∈ programs, program.length = M) :
    (∀ (schedule : List Turn) (sys : System),
      System.exec ⟨programs, NewEventLogger cap⟩ schedule = some sys →
      (∀ program ∈ sys.pending, program = []) →
        (drain sys.logger).events = []
        ∧ (drain sys.logger).store.length = N * M
        ∧ List.Perm (drain sys.logger).store (pendingEvents programs))
    ∧ (1 ≤ cap →
        ∃ schedule sys, System.exec ⟨programs, NewEventLogger cap⟩ schedule = some sys
          ∧ ∀ program ∈ sys.pending, program = []) := by
  constructor
  · intro schedule sys hexec hdone
    have hperm := exec_keeps_events schedule _ sys hexec
    simp only [NewEventLogger, List.append_nil, List.nil_append,
      pendingEvents_done sys.pending hdone] at hperm
    have hstore : (drain sys.logger).store = sys.logger.store ++ sys.logger.events := by
      rw [drain_eq]
    refine ⟨by rw [drain_eq], ?_, ?_⟩
    · rw [hstore, hperm.length_eq, pendingEvents_length M programs hM, hN]
    · rw [hstore]; exact hperm
  · intro hcap
    exact exists_completion _ ⟨programs, NewEventLogger cap⟩ rfl rfl hcap

/-- C7 on two producers of two events each, through a channel of capacity 1. -/
theorem producers_no_loss_no_duplication_example :
    System.exec ⟨[[mainStartup, mainSensor], [mainSensor, mainStartup]], NewEventLogger 1⟩
        [.producer 1, .consumer, .producer 0, .consumer, .producer 0, .consumer, .producer 1]
      = some ⟨[[], []], ⟨1, [mainStartup.event],
          [mainSensor.event, mainStartup.event, mainSensor.event]⟩⟩
    ∧ (drain ⟨1, [mainStartup.event],
          [mainSensor.event, mainStartup.event, mainSensor.event]⟩).events = []
    ∧ (drain ⟨1, [mainStartup.event],
          [mainSensor.event, mainStartup.event, mainSensor.event]⟩).store.length = 2 * 2
    ∧ List.Perm (drain ⟨1, [mainStartup.event],
          [mainSensor.event, mainStartup.event, mainSensor.event]⟩).store
        (pendingEvents [[mainStartup, mainSensor], [mainSensor, mainStartup]]) :=
  ⟨rfl, (producers_no_loss_no_duplication 2 2 1
    [[mainStartup, mainSensor], [mainSensor, mainStartup]] rfl
    (by intro program hprogram; simp at hprogram; rcases hprogram with h | h <;> subst h <;> rfl)).1
    [.producer 1, .consumer, .producer 0, .consumer, .producer 0, .consumer, .producer 1]
    ⟨[[], []], ⟨1, [mainStartup.event],
      [mainSensor.event, mainStartup.event, mainSensor.event]⟩⟩ rfl
    (by intro program hprogram; simp at hprogram; exact hprogram)⟩

/-! ## The store only grows -/

theorem check_altitude_store {fmt : Fmt} {sm sm' : SafetyMonitor} {now traceNow : Time}
    {altitude maxAltitude : Float64} {b : Bool}
    (h : CheckAltitudeLimit fmt sm now traceNow altitude maxAltitude = some (b, sm')) :
    sm'.logger.store = sm.logger.store := by
  unfold CheckAltitudeLimit at h
  split at h
  · split at h
    · exact absurd h (by simp)
    · next logger hlog =>
      have hsm : sm' = { sm with logger := logger } := by
        have := Option.some.inj h
        exact (congrArg Prod.snd this).symm
      have hel := send_eq_some (show sm.logger.send _ = some logger from hlog)
      rw [hsm, hel]
  · have hsm : sm = sm' := congrArg Prod.snd (Option.some.inj h)
    rw [hsm]

theorem check_velocity_store {fmt : Fmt} {sm sm' : SafetyMonitor} {now traceNow : Time}
    {velocity maxVelocity : Float64} {b : Bool}
    (h : CheckVelocityLimit fmt sm now traceNow velocity maxVelocity = some (b, sm')) :
    sm'.logger.store = sm.logger.store := by
  unfold CheckVelocityLimit at h
  split at h
  · split at h
    · exact absurd h (by simp)
    · next logger hlog =>
      have hsm : sm' = { sm with logger := logger } := by
        have := Option.some.inj h
        exact (congrArg Prod.snd this).symm
      have hel := send_eq_some (show sm.logger.send _ = some logger from hlog)
      rw [hsm, hel]
  · have hsm : sm = sm' := congrArg Prod.snd (Option.some.inj h)
    rw [hsm]

/-- C8: every operation of the logger and of the monitor leaves the old store as a
prefix of the new one; the queries and `GenerateSafetyReport` leave the logger as it
was, and an iteration of the consumer appends exactly the oldest queued event. -/
theorem store_append_only (fmt : Fmt) (op : Op) (el el' : EventLogger) (out : Output)
    (h : op.exec fmt el = some (out, el')) :
    el.store <+: el'.store
    ∧ (op.isRead = true → el' = el)
    ∧ (op = .processEvents →
        ∃ event rest, el.events = event :: rest ∧ el'.events = rest
          ∧ el'.store = el.store ++ [event]) := by
  cases op with
  | logEvent call =>
    simp only [Op.exec, Option.map_eq_some'] at h
    obtain ⟨mid, hmid, heq⟩ := h
    have hel : el' = mid := (congrArg Prod.snd heq).symm
    have := send_eq_some (show el.send call.event = some mid from hmid)
    subst hel
    subst this
    exact ⟨List.prefix_refl _, by simp [Op.isRead], by simp⟩
  | processEvents =>
    simp only [Op.exec, Option.map_eq_some'] at h
    obtain ⟨mid, hmid, heq⟩ := h
    have hel : el' = mid := (congrArg Prod.snd heq).symm
    obtain ⟨event, rest, hq, hmid'⟩ := processEvents_eq_some hmid
    subst hel
    subst hmid'
    exact ⟨List.prefix_append _ _, by simp [Op.isRead], fun _ => ⟨event, rest, hq, rfl, rfl⟩⟩
  | getEventsByCategory category =>
    have hel : el' = el := (congrArg Prod.snd (Option.some.inj h)).symm
    subst hel
    exact ⟨List.prefix_refl _, fun _ => rfl, by simp⟩
  | getEventsBySeverity severity =>
    have hel : el' = el := (congrArg Prod.snd (Option.some.inj h)).symm
    subst hel
    exact ⟨List.prefix_refl _, fun _ => rfl, by simp⟩
  | exportJSON =>
    have hel : el' = el := (congrArg Prod.snd (Option.some.inj h)).symm
    subst hel
    exact ⟨List.prefix_refl _, fun _ => rfl, by simp⟩
  | checkAltitudeLimit now traceNow altitude maxAltitude =>
    simp only [Op.exec, Option.map_eq_some'] at h
    obtain ⟨⟨b, sm'⟩, hcheck, heq⟩ := h
    have hel : el' = sm'.logger := (congrArg Prod.snd heq).symm
    have hstore := check_altitude_store hcheck
    subst hel
    refine ⟨?_, by simp [Op.isRead], by simp⟩
    rw [hstore]
    exact List.prefix_refl _
  | checkVelocityLimit now traceNow velocity maxVelocity =>
    simp only [Op.exec, Option.map_eq_some'] at h
    obtain ⟨⟨b, sm'⟩, hcheck, heq⟩ := h
    have hel : el' = sm'.logger := (congrArg Prod.snd heq).symm
    have hstore := check_velocity_store hcheck
    subst hel
    refine ⟨?_, by simp [Op.isRead], by simp⟩
    rw [hstore]
    exact List.prefix_refl _
  | generateSafetyReport =>
    have hel : el' = el := (congrArg Prod.snd (Option.some.inj h)).symm
    subst hel
    exact ⟨List.prefix_refl _, fun _ => rfl, by simp⟩

/-- C8 on an iteration of the consumer with one queued event, and on a query. -/
theorem store_append_only_example :
    Op.exec Fmt.sample ⟨1, [mainSensor.event], [mainStartup.event]⟩ .processEvents
        = some (.unit, ⟨1, [], [mainStartup.event, mainSensor.event]⟩)
    ∧ [mainStartup.event] <+: [mainStartup.event, mainSensor.event]
    ∧ (∃ event rest, [mainSensor.event] = event :: rest ∧ ([] : List Event) = rest
        ∧ [mainStartup.event, mainSensor.event] = [mainStartup.event] ++ [event])
    ∧ Op.exec Fmt.sample ⟨1, [mainSensor.event], [mainStartup.event]⟩
          (.getEventsByCategory EventAudit)
        = some (.events [mainStartup.event], ⟨1, [mainSensor.event], [mainStartup.event]⟩) :=
  have h := store_append_only Fmt.sample .processEvents
    ⟨1, [mainSensor.event], [mainStartup.event]⟩
    ⟨1, [], [mainStartup.event, mainSensor.event]⟩ .unit rfl
  ⟨rfl, h.1, h.2.2 rfl, rfl⟩

/-! ## Safety report -/

theorem reportLoop_eq (fmt : Fmt) (i : Nat) (violations : List Event) (report : String) :
    reportLoop fmt i violations report
      = ((shownViolations i violations).map (violationLine fmt)).foldl (· ++ ·) report := by
  induction violations generalizing i report with
  | nil => simp [reportLoop, shownViolations]
  | cons v rest ih =>
    by_cases hi : i ≥ 5
    · simp [reportLoop, shownViolations, hi]
    · simp [reportLoop, shownViolations, hi, ih]

theorem shownViolations_eq_take (i : Nat) (violations : List Event) :
    shownViolations i violations = violations.take (5 - i) := by
  induction violations generalizing i with
  | nil => simp [shownViolations]
  | cons v rest ih =>
    by_cases hi : i ≥ 5
    · have h0 : 5 - i = 0 := by omega
      simp [shownViolations, hi, h0]
    · have h1 : 5 - i = (5 - (i + 1)) + 1 := by omega
      simp only [shownViolations, hi, if_false, ih]
      rw [h1, List.take_succ_cons]

theorem getEventsByCategory_length (el : EventLogger) (category : EventCategory) :
    (GetEventsByCategory el category).length
      = el.store.countP (fun event => decide (event.Category = category)) := by
  rw [getEventsByCategory_eq, List.countP_eq_length_filter]

/-- C4, on a store of six violations: the report lists the five that were appended
first and leaves out the sixth, the most recently appended one. -/
theorem report_lists_oldest_five (fmt : Fmt) :
    (shownViolations 0 (GetEventsByCategory ⟨8, [], sixViolations⟩ EventSafetyViolation)).map
        (fun v => v.Message)
      = ["violation 1", "violation 2", "violation 3", "violation 4", "violation 5"]
    ∧ (sixViolations.getLast?).map (fun v => v.Message) = some "violation 6"
    ∧ GenerateSafetyReport fmt ⟨⟨8, [], sixViolations⟩⟩
      = reportHeader 6 0 6
        ++ violationLine fmt (violationCall 1).event ++ violationLine fmt (violationCall 2).event
        ++ violationLine fmt (violationCall 3).event ++ violationLine fmt (violationCall 4).event
        ++ violationLine fmt (violationCall 5).event := by
  refine ⟨by decide, by decide, ?_⟩
  rfl

/-- C5: the text of the report is the banner, then the three count lines, printing
the number of stored `safety_violation` events, the number of stored `sensor_error`
events and the length of the store, then the heading of the violation list, then one
line `  • <time>: <message>` for each of the first five stored `safety_violation`
events in store order; the number of those lines is `min 5` of the violation count. -/
theorem report_counts (fmt : Fmt) (sm : SafetyMonitor) :
    GenerateSafetyReport fmt sm
      = ((sm.logger.store.filter
            (fun event => decide (event.Category = "safety_violation"))).take 5).foldl
          (fun report v =>
            report ++ ("  • " ++ fmt.clock v.Timestamp ++ ": " ++ v.Message ++ "\n"))
          ("\n╔════════════════════════════════════════╗\n" ++
            "║          安全監控報告                    ║\n" ++
            "╚════════════════════════════════════════╝\n\n" ++
            "安全違規事件：" ++
            toString (sm.logger.store.countP
              (fun event => decide (event.Category = "safety_violation"))) ++ "\n" ++
            "感測器錯誤：" ++
            toString (sm.logger.store.countP
              (fun event => decide (event.Category = "sensor_error"))) ++ "\n" ++
            "總事件數：" ++ toString sm.logger.store.length ++ "\n\n" ++
            "最近的安全違規：\n")
    ∧ ((sm.logger.store.filter
          (fun event => decide (event.Category = "safety_violation"))).take 5).length
      = min 5 (sm.logger.store.countP
          (fun event => decide (event.Category = "safety_violation"))) := by
  constructor
  · unfold GenerateSafetyReport
    simp only [reportLoop_eq, shownViolations_eq_take, List.foldl_map,
      getEventsByCategory_length, getEventsByCategory_eq, Nat.sub_zero, reportHeader,
      violationLine, EventSafetyViolation, EventSensorError, List.countP_eq_length_filter]
  · rw [List.length_take, List.countP_eq_length_filter]

/-- C5 on the store of a run like that of `main.go` (one audit event, one
`sensor_error`, one `safety_violation` logged at clock reading 5): the printed counts
are 1, 1 and 3 and one violation line is rendered. -/
theorem report_counts_example :
    GenerateSafetyReport Fmt.sample
        ⟨⟨100, [], [mainStartup.event, mainSensor.event, (violationCall 5).event]⟩⟩
      = "\n╔════════════════════════════════════════╗\n" ++
        "║          安全監控報告                    ║\n" ++
        "╚════════════════════════════════════════╝\n\n" ++
        "安全違規事件：1\n感測器錯誤：1\n總事件數：3\n\n" ++
        "最近的安全違規：\n" ++
        "  • 5: violation 5\n" :=
  (report_counts Fmt.sample
    ⟨⟨100, [], [mainStartup.event, mainSensor.event, (violationCall 5).event]⟩⟩).1.trans
    rfl

/-! ## Export -/

theorem jsonError_of_finiteScalar (x : MetaValue) (h : x.isFiniteScalar = true) :
    x.jsonError = none := by
  cases x with
  | float x =>
    have hx : (x.isNaN || x.isInf) = false := by simpa [MetaValue.isFiniteScalar] using h
    simp [MetaValue.jsonError, hx]
  | str _ => simp [MetaValue.jsonError]
  | bool _ => simp [MetaValue.jsonError]
  | int _ => simp [MetaValue.jsonError]
  | null => simp [MetaValue.isFiniteScalar] at h
  | list _ => simp [MetaValue.isFiniteScalar] at h
  | map _ => simp [MetaValue.isFiniteScalar] at h
  | unsupported => simp [MetaValue.isFiniteScalar] at h

theorem jsonErrorEntries_of_finiteScalar (entries : List (String × MetaValue))
    (h : (entries.all fun kv => kv.2.isFiniteScalar) = true) : jsonErrorEntries entries = none := by
  induction entries with
  | nil => simp [jsonErrorEntries]
  | cons kv rest ih =>
    obtain ⟨k, x⟩ := kv
    simp only [List.all_cons, Bool.and_eq_true] at h
    simp [jsonErrorEntries, jsonError_of_finiteScalar x h.1, ih h.2]

mutual
theorem jsonError_isSome : ∀ x : MetaValue, x.jsonError.isSome = x.unrepresentable
  | .null => rfl
  | .str _ => rfl
  | .bool _ => rfl
  | .int _ => rfl
  | .float x => by
    cases h : (x.isNaN || x.isInf) <;> simp [MetaValue.jsonError, MetaValue.unrepresentable, h]
  | .list xs => by
    simp only [MetaValue.jsonError, MetaValue.unrepresentable]
    exact jsonErrorList_isSome xs
  | .map entries => by
    simp only [MetaValue.jsonError, MetaValue.unrepresentable]
    exact jsonErrorEntries_isSome entries
  | .unsupported => rfl
theorem jsonErrorList_isSome : ∀ xs : List MetaValue,
    (jsonErrorList xs).isSome = unrepresentableList xs
  | [] => rfl
  | x :: xs => by
    have h1 := jsonError_isSome x
    have h2 := jsonErrorList_isSome xs
    simp only [jsonErrorList, unrepresentableList, ← h1, ← h2]
    cases x.jsonError <;> simp
theorem jsonErrorEntries_isSome : ∀ entries : List (String × MetaValue),
    (jsonErrorEntries entries).isSome = unrepresentableEntries entries
  | [] => rfl
  | (_, x) :: rest => by
    have h1 := jsonError_isSome x
    have h2 := jsonErrorEntries_isSome rest
    simp only [jsonErrorEntries, unrepresentableEntries, ← h1, ← h2]
    cases x.jsonError <;> simp
end

theorem unrepresentableEntries_iff (entries : List (String × MetaValue)) :
    unrepresentableEntries entries = true ↔ ∃ kv ∈ entries, kv.2.unrepresentable = true := by
  induction entries with
  | nil => simp [unrepresentableEntries]
  | cons kv rest ih =>
    obtain ⟨k, x⟩ := kv
    simp [unrepresentableEntries, ih]

theorem event_jsonError_isSome_iff (event : Event) :
    event.jsonError.isSome = true ↔ event.hasUnencodable := by
  unfold Event.jsonError Event.hasUnencodable
  cases hm : event.Metadata with
  | none => simp
  | some entries =>
    simp only [jsonErrorEntries_isSome, unrepresentableEntries_iff, Option.some.injEq,
      exists_eq_left']

theorem storeJsonError_isSome_iff (store : List Event) :
    (storeJsonError store).isSome = true ↔ ∃ event ∈ store, event.hasUnencodable := by
  induction store with
  | nil => simp [storeJsonError]
  | cons event rest ih =>
    have hev := event_jsonError_isSome_iff event
    cases hj : event.jsonError with
    | some e =>
      rw [hj] at hev
      simp only [storeJsonError, hj, Option.isSome_some, true_iff]
      exact ⟨event, List.mem_cons_self _ _, hev.mp rfl⟩
    | none =>
      rw [hj] at hev
      have hno : ¬ event.hasUnencodable := fun h => absurd (hev.mpr h) (by simp)
      simp only [storeJsonError, hj, ih, List.mem_cons, exists_eq_or_imp, hno, false_or]

theorem exportJSON_error_iff (fmt : Fmt) (el : EventLogger) :
    (∃ err, ExportJSON fmt el = .error err) ↔ (storeJsonError el.store).isSome = true := by
  unfold ExportJSON
  cases storeJsonError el.store <;> simp

theorem storeJsonError_of_finiteScalar (store : List Event)
    (h : ∀ event ∈ store, event.finiteScalarMetadata = true) : storeJsonError store = none := by
  induction store with
  | nil => simp [storeJsonError]
  | cons event rest ih =>
    have h1 := h event (List.mem_cons_self _ _)
    have h2 := ih (fun e he => h e (List.mem_cons_of_mem _ he))
    have hev : event.jsonError = none := by
      unfold Event.jsonError
      unfold Event.finiteScalarMetadata at h1
      cases hm : event.Metadata with
      | none => rfl
      | some entries =>
        rw [hm] at h1
        exact jsonErrorEntries_of_finiteScalar entries h1
    simp [storeJsonError, hev, h2]

/-- C9 (as the code has it): `ExportJSON` returns an error exactly when some stored
event has a metadata value that cannot be represented in JSON; on a store whose
metadata values are all scalars with finite floats it succeeds and returns the text of
the store; and a NaN or infinite float among the metadata values of a stored event
makes it return an error. -/
theorem exportJSON_error_only_unencodable (fmt : Fmt) (el : EventLogger) :
    ((∃ err, ExportJSON fmt el = .error err) ↔ ∃ event ∈ el.store, event.hasUnencodable)
    ∧ ((∀ event ∈ el.store, event.finiteScalarMetadata = true) →
        ExportJSON fmt el = .ok (fmt.indent el.store))
    ∧ (∀ event ∈ el.store, ∀ entries, event.Metadata = some entries →
        ∀ kv ∈ entries, ∀ x, kv.2 = .float x → (x.isNaN || x.isInf) = true →
          ∃ err, ExportJSON fmt el = .error err) := by
  have hiff : (∃ err, ExportJSON fmt el = .error err)
      ↔ ∃ event ∈ el.store, event.hasUnencodable :=
    (exportJSON_error_iff fmt el).trans (storeJsonError_isSome_iff el.store)
  refine ⟨hiff, ?_, ?_⟩
  · intro h
    unfold ExportJSON
    rw [storeJsonError_of_finiteScalar el.store h]
  · intro event hevent entries hentries kv hkv x hx hbad
    refine hiff.mpr ⟨event, hevent, entries, hentries, kv, hkv, ?_⟩
    rw [hx]
    simpa [MetaValue.unrepresentable] using hbad

/-- C9 on the store of the run of `main.go`, whose metadata floats are finite, and on
a store whose one event has a NaN among its metadata values. -/
theorem exportJSON_main_scenario :
    ExportJSON Fmt.sample ⟨100, [],
        [mainStartup.event, mainSensor.event,
          (LogCall.event ⟨5, 6, EventSafetyViolation, "safety_monitor", "CRITICAL", "",
            some [("current_altitude", .float f150), ("max_altitude", .float f100)]⟩)]⟩
      = .ok "[3 records]"
    ∧ ∃ err, ExportJSON Fmt.sample ⟨100, [],
        [LogCall.event ⟨1, 2, EventSensorError, "sensor_fusion", "WARN", "",
          some [("drift_value", .float Float64.nan)]⟩]⟩ = .error err :=
  ⟨(exportJSON_error_only_unencodable Fmt.sample _).2.1
    (by
      intro event hevent
      simp only [List.mem_cons, List.mem_singleton, List.not_mem_nil, or_false] at hevent
      rcases hevent with h | h | h <;> subst h <;> decide),
   (exportJSON_error_only_unencodable Fmt.sample _).2.2 _ (List.mem_singleton.mpr rfl)
    [("drift_value", .float Float64.nan)] rfl ("drift_value", .float Float64.nan)
    (List.mem_singleton.mpr rfl) Float64.nan rfl (by decide)⟩

/-- C9, as stated, fails on an infinite float: the event `CheckAltitudeLimit(+Inf, 100.0)`
logs carries only scalar metadata, and `ExportJSON` on the store holding it returns the
error of `encoding/json` for the value `+Inf`. -/
theorem exportJSON_fails_on_infinite_altitude :
    (CheckAltitudeLimit Fmt.sample (NewSafetyMonitor (NewEventLogger 1)) 0 0
        Float64.posInf f100).map
      (fun r => (r.1, (drain r.2.logger).store.all Event.scalarMetadata))
      = some (false, true)
    ∧ (CheckAltitudeLimit Fmt.sample (NewSafetyMonitor (NewEventLogger 1)) 0 0
        Float64.posInf f100).map
      (fun r => ExportJSON Fmt.sample (drain r.2.logger))
      = some (.error (.unsupportedValue Float64.posInf)) :=
  ⟨by decide, rfl⟩

end Observability
